import Mathlib

/-!
Shallow embedding of the token-generation core of `llms/mlx_lm/utils.py`:
repetition penalty, logits-processor pipeline construction, sampler dispatch,
chunked prefill, the decode step, the rate limiter and the streaming wrapper.
Scores are rationals; the model collaborator, the externally defined sampling
primitives and `logsumexp` are parameters of the embedding.
-/

namespace MlxLm

/-- Token id (integer entries of the `mx.array` inputs in the source). -/
abbrev Token := Nat

/-- A dense per-vocabulary score row (one row of `logits`). -/
abbrev Vec := List ℚ

/-- A logits processor: `(token history, scores) → scores`. -/
abbrev Proc := List Token → Vec → Vec

/-- A Python numeric value as passed for `repetition_penalty` or
`max_tokens_per_sec`: either an `int` or a `float`. -/
inductive PyNum where
  | int (n : ℤ)
  | float (q : ℚ)
deriving DecidableEq

/-- Python truthiness of a number (`bool(x)`). -/
def PyNum.truthy : PyNum → Bool
  | .int n => n ≠ 0
  | .float q => q ≠ 0

/-- `isinstance(x, float)`. -/
def PyNum.isFloat : PyNum → Bool
  | .int _ => false
  | .float _ => true

/-- Numeric value of a `PyNum`. -/
def PyNum.toQ : PyNum → ℚ
  | .int n => (n : ℚ)
  | .float q => q

/-- Truthiness of an optional numeric argument (`None` is falsy). -/
def truthyOpt : Option PyNum → Bool
  | none => false
  | some v => v.truthy

/-- Numeric value of an optional numeric argument, `0` for `None`. -/
def toQOpt : Option PyNum → ℚ
  | none => 0
  | some v => v.toQ

/-- Python slice `xs[-n:]` on the token history: the trailing `n` elements for
`n > 0` (all of them when fewer than `n` exist), and the whole list for
`n = 0`, since `xs[-0:]` is `xs[0:]`. -/
def pySuffix (n : Nat) (xs : List Token) : List Token :=
  if n = 0 then xs else xs.drop (xs.length - n)

/-- `apply_repetition_penalty` (utils.py lines 104–124): when the context is
non-empty, gather the scores at the context-token indices from the original
row, rescale each (multiply by the penalty when negative, divide otherwise),
and scatter the results back at those indices. -/
def apply_repetition_penalty (logits : Vec) (tokens : List Token) (penalty : ℚ) : Vec :=
  if 0 < tokens.length then
    tokens.foldl
      (fun acc t =>
        acc.set t
          (if logits.getD t 0 < 0 then logits.getD t 0 * penalty
           else logits.getD t 0 / penalty))
      logits
  else logits

/-- `repetition_penalty_processor` (utils.py lines 205–208): applies the
penalty to the trailing `repetition_context_size` window of the history. -/
def repetition_penalty_processor (penalty : ℚ) (ctx : Nat) : Proc :=
  fun tokens logits => apply_repetition_penalty logits (pySuffix ctx tokens) penalty

/-- `logit_bias_processor` (utils.py lines 215–217): adds the configured bias
values at their (distinct, dict-key) indices, ignoring the history. -/
def logit_bias_processor (pairs : List (Nat × ℚ)) : Proc :=
  fun _ logits =>
    pairs.foldl (fun acc iv => acc.set iv.1 (acc.getD iv.1 0 + iv.2)) logits

/-- The keyword arguments of `generate_step` that drive the logits pipeline
and the sampler. A `logit_bias` of `[]` stands for an absent or empty dict
(both falsy in the source). -/
structure GenCfg where
  temp : ℚ
  top_p : ℚ
  min_p : ℚ
  min_tokens_to_keep : Nat
  repetition_penalty : Option PyNum
  repetition_context_size : Nat
  prefill_step_size : Nat
  max_tokens_per_sec : Option PyNum
  logit_bias : List (Nat × ℚ)

/-- Lines 201–219 of `generate_step`: starting from the caller-supplied
`logits_processor` list, append the repetition-penalty stage when the penalty
is truthy, then append the fixed-bias stage when the bias map is truthy. -/
def buildPipeline (user : List Proc) (cfg : GenCfg) : List Proc :=
  let l := user
  let l :=
    if truthyOpt cfg.repetition_penalty then
      l ++ [repetition_penalty_processor (toQOpt cfg.repetition_penalty)
              cfg.repetition_context_size]
    else l
  if cfg.logit_bias ≠ [] then l ++ [logit_bias_processor cfg.logit_bias] else l

/-- The processor loop of `_step` (lines 238–239): fold the pipeline over the
scores, each stage consuming the previous stage's output. -/
def applyProcs (procs : List Proc) (tokens : List Token) (logits : Vec) : Vec :=
  procs.foldl (fun l p => p tokens l) logits

/-- Modelled from the spec's words, for refinement comparison only: the stage
order the spec asserts — repetition penalty first, then fixed bias, then the
caller-supplied stages. -/
def specOrderPipeline (user : List Proc) (cfg : GenCfg) : List Proc :=
  (if truthyOpt cfg.repetition_penalty then
      [repetition_penalty_processor (toQOpt cfg.repetition_penalty)
         cfg.repetition_context_size]
    else [])
    ++ (if cfg.logit_bias ≠ [] then [logit_bias_processor cfg.logit_bias] else [])
    ++ user

section RepetitionPenaltyLemmas

/-- `List.getD` after `List.set`: the written value at the written (in-range)
index, the old value elsewhere. -/
theorem getD_set (l : Vec) (t : Nat) (v : ℚ) (i : Nat) :
    (l.set t v).getD i 0 = if i = t ∧ i < l.length then v else l.getD i 0 := by
  by_cases hit : i = t
  · subst hit
    by_cases hlt : i < l.length
    · simp [List.getD_eq_getElem?_getD, List.getElem?_set_self, hlt,
        List.getElem?_eq_getElem, hlt]
    · simp only [hlt, and_false, if_false]
      rw [List.set_eq_of_length_le (by omega)]
  · simp [List.getD_eq_getElem?_getD, List.getElem?_set_ne (fun h => hit h.symm), hit]

/-- Scattering values `w t` at the indices of `ts` over `acc` leaves length
unchanged and writes `w i` exactly at the in-range members of `ts`. -/
theorem foldlSet_getD (w : Token → ℚ) (n : Nat) :
    ∀ (ts : List Token) (acc : Vec), acc.length = n →
      ((ts.foldl (fun a t => a.set t (w t)) acc).length = n ∧
        ∀ i, (ts.foldl (fun a t => a.set t (w t)) acc).getD i 0 =
          if i ∈ ts ∧ i < n then w i else acc.getD i 0) := by
  intro ts
  induction ts with
  | nil => intro acc hl; simpa using hl
  | cons t ts ih =>
    intro acc hl
    have hl' : (acc.set t (w t)).length = n := by simpa using hl
    obtain ⟨ihlen, ihget⟩ := ih (acc.set t (w t)) hl'
    constructor
    · simpa using ihlen
    · intro i
      have := ihget i
      simp only [List.foldl_cons] at *
      rw [this, getD_set, hl]
      by_cases hts : i ∈ ts
      · by_cases hin : i < n
        · simp [hts, hin, List.mem_cons]
        · simp [hts, hin]
      · by_cases hit : i = t
        · subst hit
          by_cases hin : i < n <;> simp [hts, hin, List.mem_cons]
        · simp [hts, hit, List.mem_cons]

/-- Pointwise description of `apply_repetition_penalty`: members of the
context window get the rescaled original score, everything else is unchanged
(length is preserved as well). -/
theorem apply_repetition_penalty_getD (L : Vec) (ts : List Token) (p : ℚ) :
    (apply_repetition_penalty L ts p).length = L.length ∧
      ∀ i, (apply_repetition_penalty L ts p).getD i 0 =
        if i ∈ ts ∧ i < L.length then
          (if L.getD i 0 < 0 then L.getD i 0 * p else L.getD i 0 / p)
        else L.getD i 0 := by
  unfold apply_repetition_penalty
  by_cases h : 0 < ts.length
  · simp only [h, if_true]
    exact foldlSet_getD
      (fun t => if L.getD t 0 < 0 then L.getD t 0 * p else L.getD t 0 / p)
      L.length ts L rfl
  · have : ts = [] := by
      cases ts with
      | nil => rfl
      | cons a l => simp at h
    subst this
    simp

end RepetitionPenaltyLemmas

/-- C4: for every penalty `p ≥ 0`, score row `L` and token id `t` present in
the trailing window of at most `repetition_context_size` tokens, the
repetition-penalty processor rescales index `t` to `L[t]*p` when `L[t] < 0`
and `L[t]/p` otherwise, leaves all indices outside the window unchanged, and
(for a positive window size) the window indeed holds at most
`repetition_context_size` tokens. -/
theorem repetition_penalty_window_values
    (L : Vec) (tokens : List Token) (p : ℚ) (ctx : Nat) (t : Nat)
    (hp : 0 ≤ p) (ht : t ∈ pySuffix ctx tokens) (htl : t < L.length) :
    (repetition_penalty_processor p ctx tokens L).getD t 0 =
        (if L.getD t 0 < 0 then L.getD t 0 * p else L.getD t 0 / p) ∧
      (∀ i, i ∉ pySuffix ctx tokens →
        (repetition_penalty_processor p ctx tokens L).getD i 0 = L.getD i 0) ∧
      (0 < ctx → (pySuffix ctx tokens).length ≤ ctx) := by
  obtain ⟨hlen, hget⟩ :=
    apply_repetition_penalty_getD L (pySuffix ctx tokens) p
  refine ⟨?_, ?_, ?_⟩
  · rw [show repetition_penalty_processor p ctx tokens L =
      apply_repetition_penalty L (pySuffix ctx tokens) p from rfl, hget t]
    simp [ht, htl]
  · intro i hi
    rw [show repetition_penalty_processor p ctx tokens L =
      apply_repetition_penalty L (pySuffix ctx tokens) p from rfl, hget i]
    simp [hi]
  · intro hctx
    unfold pySuffix
    have : ¬ ctx = 0 := by omega
    simp only [this, if_false, List.length_drop]
    omega

/-- The externally defined sampling primitives imported from `sample_utils`
(collaborators, not part of this file's source). -/
structure SamplerFns where
  top_p_sampling : Vec → ℚ → ℚ → Token
  min_p_sampling : Vec → ℚ → Nat → ℚ → Token
  categorical_sampling : Vec → ℚ → Token

/-- `mx.argmax` over a score row: index of the maximum, first occurrence on
ties, `0` on an empty row. -/
def argmaxIdx (L : Vec) : Nat :=
  match L with
  | [] => 0
  | x :: xs =>
    (xs.foldl
      (fun acc v =>
        if acc.2.1 < v then (acc.2.2, v, acc.2.2 + 1)
        else (acc.1, acc.2.1, acc.2.2 + 1))
      ((0 : Nat), x, (1 : Nat))).1

/-- The `sample` closure of `generate_step` (lines 173–186): normalize the
incoming scores into log-probabilities, then pick exactly one strategy —
arg-max at zero temperature, else nucleus for `top_p` in `(0, 1)`, else min-p
for non-zero `min_p`, else plain categorical. `lse` is the external
`mx.logsumexp` primitive. -/
def sample (lse : Vec → ℚ) (fns : SamplerFns) (cfg : GenCfg) (logits : Vec) :
    Token × Vec :=
  let logprobs := logits.map (fun x => x - lse logits)
  let token :=
    if cfg.temp = 0 then argmaxIdx logits
    else if 0 < cfg.top_p ∧ cfg.top_p < 1 then
      fns.top_p_sampling logits cfg.top_p cfg.temp
    else if cfg.min_p ≠ 0 then
      fns.min_p_sampling logits cfg.min_p cfg.min_tokens_to_keep cfg.temp
    else fns.categorical_sampling logits cfg.temp
  (token, logprobs)

/-- The model collaborator: its layer count, and — abstracting a causal model
whose cache is mutated by appending the consumed tokens — the last-position
score row as a function of the full consumed token history. -/
structure ModelFn where
  layers : Nat
  f : List Token → Vec

/-- Log-sum-exp normalization of a score row, as in
`logits - mx.logsumexp(logits)` (line 174). -/
def lseNormalize (lse : Vec → ℚ) (L : Vec) : Vec := L.map (fun x => x - lse L)

/-- `tokens = mx.concat([tokens, y]) if tokens is not None else y`
(line 236). -/
def histAfter (th : Option (List Token)) (y : List Token) : List Token :=
  match th with
  | none => y
  | some ts => ts ++ y

/-- Observable result of one `_step` call: the sampled token, the yielded
log-probability row, the pipeline-output scores, and the updated token-history
and cache states. -/
structure StepOut where
  tok : Token
  logprobs : Vec
  processed : Vec
  tokensHist : Option (List Token)
  cacheHist : List Token
deriving DecidableEq

/-- `_step` (lines 230–242): run the model on the pending tokens against the
cache, keep the last-position row, and — when any processor is configured —
append the consumed tokens to the history and fold the pipeline over the row;
finally sample from the (possibly processed) row. -/
def stepFn (lse : Vec → ℚ) (fns : SamplerFns) (cfg : GenCfg) (procs : List Proc)
    (M : ModelFn) (th : Option (List Token)) (cacheHist y : List Token) : StepOut :=
  let raw := M.f (cacheHist ++ y)
  let thNew := if procs.isEmpty then th else some (histAfter th y)
  let processed :=
    if procs.isEmpty then raw else applyProcs procs (histAfter th y) raw
  let s := sample lse fns cfg processed
  ⟨s.1, s.2, processed, thNew, cacheHist ++ y⟩

/-- The cache after `_step` is the old cache extended by the consumed tokens. -/
theorem stepFn_cacheHist (lse : Vec → ℚ) (fns : SamplerFns) (cfg : GenCfg)
    (procs : List Proc) (M : ModelFn) (th : Option (List Token))
    (cacheHist y : List Token) :
    (stepFn lse fns cfg procs M th cacheHist y).cacheHist = cacheHist ++ y := rfl

/-- The pipeline-output scores of `_step`. -/
theorem stepFn_processed (lse : Vec → ℚ) (fns : SamplerFns) (cfg : GenCfg)
    (procs : List Proc) (M : ModelFn) (th : Option (List Token))
    (cacheHist y : List Token) :
    (stepFn lse fns cfg procs M th cacheHist y).processed =
      if procs.isEmpty then M.f (cacheHist ++ y)
      else applyProcs procs (histAfter th y) (M.f (cacheHist ++ y)) := rfl

/-- The sampled token of `_step` comes from sampling the pipeline output. -/
theorem stepFn_tok (lse : Vec → ℚ) (fns : SamplerFns) (cfg : GenCfg)
    (procs : List Proc) (M : ModelFn) (th : Option (List Token))
    (cacheHist y : List Token) :
    (stepFn lse fns cfg procs M th cacheHist y).tok =
      (sample lse fns cfg
        (stepFn lse fns cfg procs M th cacheHist y).processed).1 := rfl

/-- The yielded log-probability row of `_step` comes from sampling the
pipeline output. -/
theorem stepFn_logprobs (lse : Vec → ℚ) (fns : SamplerFns) (cfg : GenCfg)
    (procs : List Proc) (M : ModelFn) (th : Option (List Token))
    (cacheHist y : List Token) :
    (stepFn lse fns cfg procs M th cacheHist y).logprobs =
      (sample lse fns cfg
        (stepFn lse fns cfg procs M th cacheHist y).processed).2 := rfl

/-- C4 witness: a concrete run — `L = [-3, 5, 7]`, window `[0, 1]`, penalty
`2` — where index `0` becomes `-6`, index `1` becomes `5/2`, and index `2` is
untouched. -/
theorem repetition_penalty_window_values_witness :
    (0 : ℚ) ≤ 2 ∧
      (repetition_penalty_processor 2 20 [0, 1] [-3, 5, 7]).getD 0 0 =
        (if ([-3, 5, 7] : Vec).getD 0 0 < 0 then ([-3, 5, 7] : Vec).getD 0 0 * 2
         else ([-3, 5, 7] : Vec).getD 0 0 / 2) := by
  refine ⟨by decide, ?_⟩
  exact (repetition_penalty_window_values [-3, 5, 7] [0, 1] 2 20 0
    (by decide) (by decide) (by decide)).1

/-- C3: exactly one sampling strategy executes per `sample` call, selected in
priority order — zero temperature always arg-maxes (whatever `top_p` and
`min_p` are); otherwise `top_p` strictly inside `(0,1)` selects nucleus
sampling; otherwise a non-zero `min_p` selects min-p sampling; otherwise plain
temperature-scaled categorical sampling runs. -/
theorem sample_strategy_priority (lse : Vec → ℚ) (fns : SamplerFns)
    (cfg : GenCfg) (L : Vec) :
    (cfg.temp = 0 → (sample lse fns cfg L).1 = argmaxIdx L) ∧
      (cfg.temp ≠ 0 → 0 < cfg.top_p → cfg.top_p < 1 →
        (sample lse fns cfg L).1 = fns.top_p_sampling L cfg.top_p cfg.temp) ∧
      (cfg.temp ≠ 0 → ¬(0 < cfg.top_p ∧ cfg.top_p < 1) → cfg.min_p ≠ 0 →
        (sample lse fns cfg L).1 =
          fns.min_p_sampling L cfg.min_p cfg.min_tokens_to_keep cfg.temp) ∧
      (cfg.temp ≠ 0 → ¬(0 < cfg.top_p ∧ cfg.top_p < 1) → cfg.min_p = 0 →
        (sample lse fns cfg L).1 = fns.categorical_sampling L cfg.temp) := by
  unfold sample
  refine ⟨fun h0 => by simp [h0], fun h0 h1 h2 => by simp [h0, h1, h2],
    fun h0 h1 h2 => by simp [h0, h1, h2], fun h0 h1 h2 => by simp [h0, h1, h2]⟩

/-- A trivially concrete instantiation of the sampling collaborators, used
only by witnesses and counterexamples. -/
def fns0 : SamplerFns :=
  ⟨fun _ _ _ => 101, fun _ _ _ _ => 102, fun _ _ => 103⟩

/-- A trivially concrete `logsumexp` collaborator (the constant `0`), used
only by witnesses and counterexamples. -/
def lse0 : Vec → ℚ := fun _ => 0

/-- A zero-temperature sampling configuration with `top_p = 3/4` and
`min_p = 1/2`, exercising the priority of the greedy branch. -/
def cfgGreedy : GenCfg :=
  ⟨0, 3/4, 1/2, 1, none, 20, 512, none, []⟩

/-- C3 witness: at zero temperature the greedy branch runs even though
`top_p` and `min_p` carry non-default values. -/
theorem sample_strategy_priority_witness :
    (sample lse0 fns0 cfgGreedy [1, 3, 2]).1 = argmaxIdx [1, 3, 2] :=
  (sample_strategy_priority lse0 fns0 cfgGreedy [1, 3, 2]).1 rfl

/-- C8: whenever at least one processor is configured, the log-probability
row produced by `_step` is the log-sum-exp normalization of the
pipeline-output scores — the pipeline is folded over the raw model row first,
and `sample` normalizes its own (post-pipeline) input. -/
theorem step_logprobs_from_pipeline_output (lse : Vec → ℚ) (fns : SamplerFns)
    (cfg : GenCfg) (procs : List Proc) (M : ModelFn) (th : Option (List Token))
    (cacheHist y : List Token) (hne : procs ≠ []) :
    (stepFn lse fns cfg procs M th cacheHist y).logprobs =
      lseNormalize lse
        (applyProcs procs (histAfter th y) (M.f (cacheHist ++ y))) := by
  have hE : procs.isEmpty = false := by
    cases procs with
    | nil => exact absurd rfl hne
    | cons a l => rfl
  simp [stepFn, hE, sample, lseNormalize]

/-- C8 witness: with the single stage that doubles every score and a model
returning `[1, 2]`, the yielded log-probabilities are the normalization of the
doubled row `[2, 4]`. -/
theorem step_logprobs_from_pipeline_output_witness :
    (stepFn lse0 fns0 cfgGreedy [fun _ l => l.map (· * 2)] ⟨4, fun _ => [1, 2]⟩
        none [] [0]).logprobs =
      lseNormalize lse0
        (applyProcs [fun _ l => l.map (· * 2)] (histAfter none [0])
          ((⟨4, fun _ => [1, 2]⟩ : ModelFn).f ([] ++ [0]))) :=
  step_logprobs_from_pipeline_output lse0 fns0 cfgGreedy
    [fun _ l => l.map (· * 2)] ⟨4, fun _ => [1, 2]⟩ none [] [0] (by simp)

/-- The caller-supplied stage used in pipeline-order examples: doubles every
score, ignoring the history. -/
def userDouble : Proc := fun _ l => l.map (· * 2)

/-- A configuration with repetition penalty `2.0`, logit bias `{0: +5}`, zero
temperature and default remaining fields. -/
def cfgRepBias : GenCfg :=
  ⟨0, 1, 0, 1, some (.float 2), 20, 512, none, [(0, 5)]⟩

/-- C1 counterexample: with one caller stage (doubling), penalty `2.0` and
bias `{0: +5}` on scores `[1, 1]` with history `[0]`, the pipeline built by
`generate_step` produces `[6, 2]`, while the spec's claimed order
(penalty, then bias, then caller stages) would produce `[11, 2]`. -/
theorem pipeline_order_counterexample :
    applyProcs (buildPipeline [userDouble] cfgRepBias) [0] [1, 1] = [6, 2] ∧
      applyProcs (specOrderPipeline [userDouble] cfgRepBias) [0] [1, 1] =
        [11, 2] ∧
      ([6, 2] : Vec) ≠ [11, 2] := by
  refine ⟨?_, ?_, by norm_num⟩ <;>
    norm_num [applyProcs, buildPipeline, specOrderPipeline, userDouble,
      cfgRepBias, repetition_penalty_processor, logit_bias_processor,
      apply_repetition_penalty, pySuffix, truthyOpt, toQOpt, PyNum.truthy,
      PyNum.toQ, List.foldl, List.set, List.getD]

/-- C1 (amended): the per-step pipeline applies the caller-supplied stages
first, then the repetition-penalty stage, then the fixed-bias stage — the
internal stages are appended after the caller's list — each stage consuming
the previous stage's output. -/
theorem pipeline_order_caller_then_penalty_then_bias
    (user : List Proc) (cfg : GenCfg) (tokens : List Token) (L : Vec) :
    applyProcs (buildPipeline user cfg) tokens L =
      (fun afterRep =>
          if cfg.logit_bias ≠ [] then
            logit_bias_processor cfg.logit_bias tokens afterRep
          else afterRep)
        ((fun afterUser =>
            if truthyOpt cfg.repetition_penalty then
              repetition_penalty_processor (toQOpt cfg.repetition_penalty)
                cfg.repetition_context_size tokens afterUser
            else afterUser)
          (applyProcs user tokens L)) := by
  unfold buildPipeline applyProcs
  by_cases hr : truthyOpt cfg.repetition_penalty = true <;>
    by_cases hb : cfg.logit_bias ≠ [] <;>
      simp [hr, hb, List.foldl_append]

/-- Observable events of a `generate_step` run: the optional supplied-cache
length check, each model forward pass (with its input length), and each
yielded token. -/
inductive GEv where
  | cacheCheck
  | forward (len : Nat)
  | yieldTok (t : Token)
deriving DecidableEq

/-- The chunked-prefill loop (lines 244–248), with explicit fuel because the
source loop never exits when `prefill_step_size = 0` while tokens remain:
while more than `step` tokens are pending, run one forward pass over exactly
one chunk (appending it to the cache history) and drop it from the pending
tokens. Returns the emitted forward events, the consumed history, and the
remaining tokens — or `none` when the fuel runs out. -/
def prefillLoop (step : Nat) :
    Nat → List Token → List Token → Option (List GEv × List Token × List Token)
  | 0, cacheHist, y =>
    if step < y.length then none else some ([], cacheHist, y)
  | fuel + 1, cacheHist, y =>
    if step < y.length then
      (prefillLoop step fuel (cacheHist ++ y.take step) (y.drop step)).map
        (fun r => (GEv.forward (y.take step).length :: r.1, r.2))
    else some ([], cacheHist, y)

/-- Chunked prefill followed by the first `_step` call (line 250), starting
from an empty freshly-made cache: the prompt remainder left by the loop is the
input of the first step. -/
def chunkedFirst (fuel : Nat) (lse : Vec → ℚ) (fns : SamplerFns) (cfg : GenCfg)
    (procs : List Proc) (M : ModelFn) (prompt : List Token) : Option StepOut :=
  (prefillLoop cfg.prefill_step_size fuel [] prompt).map
    (fun r => stepFn lse fns cfg procs M none r.2.1 r.2.2)

/-- The unchunked single pass: when `prefill_step_size ≥ prompt length` the
while loop never runs and the first `_step` consumes the whole prompt. -/
def unchunkedFirst (lse : Vec → ℚ) (fns : SamplerFns) (cfg : GenCfg)
    (procs : List Proc) (M : ModelFn) (prompt : List Token) : StepOut :=
  stepFn lse fns cfg procs M none [] prompt

/-- A pipeline whose stages all ignore their token-history argument (the
fixed-bias stage does; the repetition-penalty stage does not). -/
def HistInsensitive (procs : List Proc) : Prop :=
  ∀ p ∈ procs, ∀ h1 h2 L, p h1 L = p h2 L

/-- The prefill loop always stops with the cache history and the remaining
tokens forming exactly its input tokens, whatever the (positive) chunk size. -/
theorem prefillLoop_consumes (step : Nat) (hstep : 0 < step) :
    ∀ (fuel : Nat) (cacheHist y : List Token), y.length ≤ fuel →
      ∃ evs c r, prefillLoop step fuel cacheHist y = some (evs, c, r) ∧
        c ++ r = cacheHist ++ y := by
  intro fuel
  induction fuel with
  | zero =>
    intro cacheHist y hy
    have h0 : y.length = 0 := Nat.le_zero.mp hy
    have : ¬ step < y.length := by omega
    exact ⟨[], cacheHist, y, by simp [prefillLoop, this], rfl⟩
  | succ fuel ih =>
    intro cacheHist y hy
    by_cases h : step < y.length
    · have hdrop : (y.drop step).length ≤ fuel := by
        simp only [List.length_drop]; omega
      obtain ⟨evs, c, r, heq, hcr⟩ :=
        ih (cacheHist ++ y.take step) (y.drop step) hdrop
      refine ⟨GEv.forward (y.take step).length :: evs, c, r, ?_, ?_⟩
      · simp [prefillLoop, h, heq]
      · rw [hcr, List.append_assoc, List.take_append_drop]
    · exact ⟨[], cacheHist, y, by simp [prefillLoop, h], rfl⟩

/-- History-insensitive pipelines give the same output on any two histories. -/
theorem applyProcs_hist_insensitive (procs : List Proc)
    (hins : HistInsensitive procs) (h1 h2 : List Token) (L : Vec) :
    applyProcs procs h1 L = applyProcs procs h2 L := by
  induction procs generalizing L with
  | nil => rfl
  | cons p ps ih =>
    have hp := hins p (by simp)
    have hps : HistInsensitive ps := fun q hq => hins q (by simp [hq])
    simp only [applyProcs, List.foldl_cons] at *
    rw [hp h1 h2 L]
    exact ih hps (p h2 L)

/-- C2 (amended): for every positive chunk size at most the prompt length
(and enough fuel), chunked prefill followed by the first decode step produces
the same final cache state as the unchunked single pass; and when every
configured pipeline stage is insensitive to its token-history argument, the
pipeline-output scores, the sampled token and the yielded log-probability row
of the first step also coincide with the unchunked pass. -/
theorem chunked_prefill_equivalence (fuel : Nat) (lse : Vec → ℚ)
    (fns : SamplerFns) (cfg : GenCfg) (procs : List Proc) (M : ModelFn)
    (prompt : List Token) (hstep : 0 < cfg.prefill_step_size)
    (hle : cfg.prefill_step_size ≤ prompt.length)
    (hfuel : prompt.length ≤ fuel) :
    ∃ out, chunkedFirst fuel lse fns cfg procs M prompt = some out ∧
      out.cacheHist = (unchunkedFirst lse fns cfg procs M prompt).cacheHist ∧
      (HistInsensitive procs →
        out.processed = (unchunkedFirst lse fns cfg procs M prompt).processed ∧
        out.tok = (unchunkedFirst lse fns cfg procs M prompt).tok ∧
        out.logprobs = (unchunkedFirst lse fns cfg procs M prompt).logprobs) := by
  obtain ⟨evs, c, r, heq, hcr⟩ :=
    prefillLoop_consumes cfg.prefill_step_size hstep fuel [] prompt hfuel
  simp only [List.nil_append] at hcr
  refine ⟨stepFn lse fns cfg procs M none c r, ?_, ?_, ?_⟩
  · simp [chunkedFirst, heq]
  · rw [unchunkedFirst, stepFn_cacheHist, stepFn_cacheHist, hcr,
      List.nil_append]
  · intro hins
    have hproc :
        applyProcs procs (histAfter none r) (M.f prompt) =
          applyProcs procs (histAfter none prompt) (M.f prompt) :=
      applyProcs_hist_insensitive procs hins _ _ _
    have hpe :
        (stepFn lse fns cfg procs M none c r).processed =
          (unchunkedFirst lse fns cfg procs M prompt).processed := by
      rw [unchunkedFirst, stepFn_processed, stepFn_processed, List.nil_append,
        hcr]
      cases hE : procs.isEmpty with
      | true => rw [if_pos rfl, if_pos rfl]
      | false =>
        rw [if_neg Bool.false_ne_true, if_neg Bool.false_ne_true, hproc]
    refine ⟨hpe, ?_, ?_⟩
    · rw [stepFn_tok, unchunkedFirst, stepFn_tok, ← unchunkedFirst, hpe]
    · rw [stepFn_logprobs, unchunkedFirst, stepFn_logprobs, ← unchunkedFirst,
        hpe]

/-- With chunk size `0` and a pending token, the prefill loop makes no
progress: the chunk `y[:0]` is empty and `y[0:]` is `y` again, so no fuel
bound is ever enough (the source loop runs forever). -/
theorem prefillLoop_zero_chunk_stuck :
    ∀ (fuel : Nat) (c : List Token), prefillLoop 0 fuel c [0] = none := by
  intro fuel
  induction fuel with
  | zero => intro c; simp [prefillLoop]
  | succ fuel ih => intro c; simp [prefillLoop, ih]

/-- The configuration of the chunked-prefill examples: repetition penalty
`2.0`, chunk size `1`, zero temperature, no bias. -/
def cfgChunk : GenCfg :=
  ⟨0, 1, 0, 1, some (.float 2), 20, 1, none, []⟩

/-- C2 witness: chunk size `1` on the two-token prompt `[0, 1]` with the
(history-insensitive-free) hypotheses discharged concretely. -/
theorem chunked_prefill_equivalence_witness :
    ∃ out,
      chunkedFirst 3 lse0 fns0 cfgChunk [] ⟨4, fun _ => [4, 4]⟩ [0, 1] =
          some out ∧
        out.cacheHist =
          (unchunkedFirst lse0 fns0 cfgChunk [] ⟨4, fun _ => [4, 4]⟩
            [0, 1]).cacheHist ∧
        (HistInsensitive [] →
          out.processed =
              (unchunkedFirst lse0 fns0 cfgChunk [] ⟨4, fun _ => [4, 4]⟩
                [0, 1]).processed ∧
            out.tok =
              (unchunkedFirst lse0 fns0 cfgChunk [] ⟨4, fun _ => [4, 4]⟩
                [0, 1]).tok ∧
            out.logprobs =
              (unchunkedFirst lse0 fns0 cfgChunk [] ⟨4, fun _ => [4, 4]⟩
                [0, 1]).logprobs) :=
  chunked_prefill_equivalence 3 lse0 fns0 cfgChunk [] ⟨4, fun _ => [4, 4]⟩
    [0, 1] (by decide) (by decide) (by decide)

/-- C2 counterexample: the claim fails as stated. First, with chunk size `0`
(allowed by "chunk size ≤ prompt length") the prefill loop never terminates —
no amount of fuel finishes it on the one-token prompt `[0]`. Second, with the
history-sensitive repetition-penalty stage configured (penalty `2.0`, chunk
size `1`, constant model row `[4, 4]`), the first step's pipeline output after
chunked prefill is `[4, 2]` while the unchunked pass gives `[2, 2]`: the
first-token distribution differs because the first step's history is only the
post-prefill prompt remainder. -/
theorem chunked_prefill_counterexample :
    prefillLoop 0 100 [] [0] = none ∧
      (chunkedFirst 3 lse0 fns0 cfgChunk
          (buildPipeline [] cfgChunk) ⟨4, fun _ => [4, 4]⟩ [0, 1]).map
        StepOut.processed = some [4, 2] ∧
      (unchunkedFirst lse0 fns0 cfgChunk
          (buildPipeline [] cfgChunk) ⟨4, fun _ => [4, 4]⟩ [0, 1]).processed =
        [2, 2] ∧
      ([4, 2] : Vec) ≠ [2, 2] := by
  refine ⟨prefillLoop_zero_chunk_stuck 100 [], ?_, ?_, by norm_num⟩ <;>
    norm_num [chunkedFirst, unchunkedFirst, prefillLoop, stepFn, applyProcs,
      buildPipeline, cfgChunk, truthyOpt, toQOpt, PyNum.truthy, PyNum.toQ,
      repetition_penalty_processor, apply_repetition_penalty, pySuffix,
      histAfter, List.foldl, List.set, List.getD]

/-- Lines 188–193: `repetition_penalty` is rejected (with a `ValueError`)
exactly when it is truthy and either negative or not a `float` instance.
Returns `true` when accepted. -/
def validRepetitionPenalty : Option PyNum → Bool
  | none => true
  | some v => !(v.truthy && (decide (v.toQ < 0) || !v.isFloat))

/-- Lines 195–199: `max_tokens_per_sec`, when supplied, is rejected unless it
is a positive number. Returns `true` when accepted. -/
def validMaxTokensPerSec : Option PyNum → Bool
  | none => true
  | some v => decide (0 < v.toQ)

/-- The steady-state generation loop (lines 255–269), unrolled for a given
number of yields: each iteration runs `_step` on the single pending token and
then yields the previous one. -/
def decodeIter (lse : Vec → ℚ) (fns : SamplerFns) (cfg : GenCfg)
    (procs : List Proc) (M : ModelFn) :
    Nat → Option (List Token) → List Token → Token → List GEv
  | 0, _, _, _ => []
  | steps + 1, th, cacheHist, cur =>
    let out := stepFn lse fns cfg procs M th cacheHist [cur]
    GEv.forward 1 :: GEv.yieldTok cur ::
      decodeIter lse fns cfg procs M steps out.tokensHist out.cacheHist out.tok

/-- The post-validation body of `generate_step` (lines 221–269): chunked
prefill, the first `_step` over the prompt remainder, then the unrolled
generation loop. The fuel `prompt.length + 1` always suffices for a positive
chunk size; a run whose prefill loop cannot terminate (chunk size `0` with
tokens remaining, on which the source loops forever) is marked by an error
string. -/
def genBody (lse : Vec → ℚ) (fns : SamplerFns) (M : ModelFn) (cfg : GenCfg)
    (procs : List Proc) (prompt : List Token) (steps : Nat) :
    List GEv × Option String :=
  match prefillLoop cfg.prefill_step_size (prompt.length + 1) [] prompt with
  | none => ([], some "prefill loop does not terminate")
  | some r =>
    let out := stepFn lse fns cfg procs M none r.2.1 r.2.2
    (r.1 ++ GEv.forward r.2.2.length ::
        decodeIter lse fns cfg procs M steps out.tokensHist out.cacheHist
          out.tok,
      none)

/-- `generate_step` (lines 126–269) as an event trace: the two validations in
source order, the pipeline built from the caller's list, the supplied-cache
length check against the model's layer count (a fresh cache is made when none
is supplied), then prefill and the generation loop. The second component is
the raised error, when any. `suppliedCache` is the entry count of the
caller-supplied `prompt_cache`. -/
def generate_step (lse : Vec → ℚ) (fns : SamplerFns) (M : ModelFn)
    (cfg : GenCfg) (user : List Proc) (suppliedCache : Option Nat)
    (prompt : List Token) (steps : Nat) : List GEv × Option String :=
  if !validRepetitionPenalty cfg.repetition_penalty then
    ([], some "repetition_penalty must be a non-negative float")
  else if !validMaxTokensPerSec cfg.max_tokens_per_sec then
    ([], some "max_tokens_per_sec must be a positive number")
  else
    let procs := buildPipeline user cfg
    match suppliedCache with
    | some n =>
      if n ≠ M.layers then
        ([GEv.cacheCheck], some "Wrong number of layers in the prompt cache.")
      else
        let r := genBody lse fns M cfg procs prompt steps
        (GEv.cacheCheck :: r.1, r.2)
    | none => genBody lse fns M cfg procs prompt steps

/-- The generation loop never re-checks the cache. -/
theorem decodeIter_no_cacheCheck (lse : Vec → ℚ) (fns : SamplerFns)
    (cfg : GenCfg) (procs : List Proc) (M : ModelFn) :
    ∀ (steps : Nat) (th : Option (List Token)) (cacheHist : List Token)
      (cur : Token),
      GEv.cacheCheck ∉ decodeIter lse fns cfg procs M steps th cacheHist cur := by
  intro steps
  induction steps with
  | zero => intro th cacheHist cur; simp [decodeIter]
  | succ steps ih =>
    intro th cacheHist cur
    simp only [decodeIter, List.mem_cons]
    push_neg
    exact ⟨by simp, by simp, ih _ _ _⟩

/-- The prefill loop emits only forward events. -/
theorem prefillLoop_no_cacheCheck (step : Nat) :
    ∀ (fuel : Nat) (cacheHist y : List Token) (evs : List GEv)
      (c r : List Token),
      prefillLoop step fuel cacheHist y = some (evs, c, r) →
        GEv.cacheCheck ∉ evs := by
  intro fuel
  induction fuel with
  | zero =>
    intro cacheHist y evs c r h
    by_cases hy : step < y.length
    · simp [prefillLoop, hy] at h
    · simp [prefillLoop, hy] at h
      obtain ⟨h1, h2, h3⟩ := h
      subst h1
      simp
  | succ fuel ih =>
    intro cacheHist y evs c r h
    by_cases hy : step < y.length
    · simp only [prefillLoop] at h
      rw [if_pos hy] at h
      rw [Option.map_eq_some'] at h
      obtain ⟨⟨evs', c', r'⟩, heq, hmap⟩ := h
      have hevs : evs = GEv.forward (y.take step).length :: evs' := by
        have := congrArg Prod.fst hmap
        simpa using this.symm
      rw [hevs]
      simp only [List.mem_cons]
      push_neg
      exact ⟨by simp, ih _ _ _ _ _ heq⟩
    · simp [prefillLoop, hy] at h
      obtain ⟨h1, h2, h3⟩ := h
      subst h1
      simp

/-- The post-validation body of `generate_step` never checks the cache. -/
theorem genBody_no_cacheCheck (lse : Vec → ℚ) (fns : SamplerFns) (M : ModelFn)
    (cfg : GenCfg) (procs : List Proc) (prompt : List Token) (steps : Nat) :
    GEv.cacheCheck ∉ (genBody lse fns M cfg procs prompt steps).1 := by
  unfold genBody
  cases heq : prefillLoop cfg.prefill_step_size (prompt.length + 1) [] prompt with
  | none => simp
  | some r =>
    obtain ⟨evs, c, rem⟩ := r
    simp only [List.mem_append, List.mem_cons]
    push_neg
    exact ⟨prefillLoop_no_cacheCheck _ _ _ _ _ _ _ heq, by simp,
      decodeIter_no_cacheCheck _ _ _ _ _ _ _ _ _⟩

/-- C6: with valid penalty and rate arguments, a supplied prompt cache whose
entry count differs from the model's layer count makes `generate_step` raise
the fatal cache error with no forward pass having run; and in every run with
a supplied cache the length check is the very first event and happens exactly
once. -/
theorem cache_layer_validation (lse : Vec → ℚ) (fns : SamplerFns) (M : ModelFn)
    (cfg : GenCfg) (user : List Proc) (prompt : List Token) (steps n : Nat)
    (hpen : validRepetitionPenalty cfg.repetition_penalty = true)
    (hrate : validMaxTokensPerSec cfg.max_tokens_per_sec = true) :
    (n ≠ M.layers →
        generate_step lse fns M cfg user (some n) prompt steps =
          ([GEv.cacheCheck],
            some "Wrong number of layers in the prompt cache.")) ∧
      (generate_step lse fns M cfg user (some n) prompt steps).1.head? =
        some GEv.cacheCheck ∧
      (generate_step lse fns M cfg user (some n) prompt steps).1.count
          GEv.cacheCheck = 1 := by
  by_cases hn : n = M.layers
  · have hrun :
        generate_step lse fns M cfg user (some n) prompt steps =
          (GEv.cacheCheck ::
              (genBody lse fns M cfg (buildPipeline user cfg) prompt steps).1,
            (genBody lse fns M cfg (buildPipeline user cfg) prompt steps).2) := by
      simp [generate_step, hpen, hrate, hn]
    refine ⟨fun hne => absurd hn hne, ?_, ?_⟩
    · rw [hrun]
      rfl
    · rw [hrun]
      simp only [List.count_cons_self]
      rw [List.count_eq_zero.mpr (genBody_no_cacheCheck _ _ _ _ _ _ _)]
  · have hrun :
        generate_step lse fns M cfg user (some n) prompt steps =
          ([GEv.cacheCheck],
            some "Wrong number of layers in the prompt cache.") := by
      simp [generate_step, hpen, hrate, hn]
    exact ⟨fun _ => hrun, by rw [hrun]; rfl, by rw [hrun]; rfl⟩

/-- C6 witness: a 4-layer model given a 2-entry cache is rejected
immediately — the trace holds the single cache-check event and the fatal
error, with no forward pass. -/
theorem cache_layer_validation_witness :
    ((2 : Nat) ≠ (4 : Nat) →
        generate_step lse0 fns0 ⟨4, fun _ => [1]⟩ cfgGreedy [] (some 2) [0] 0 =
          ([GEv.cacheCheck],
            some "Wrong number of layers in the prompt cache.")) ∧
      (generate_step lse0 fns0 ⟨4, fun _ => [1]⟩ cfgGreedy [] (some 2)
            [0] 0).1.head? = some GEv.cacheCheck ∧
      (generate_step lse0 fns0 ⟨4, fun _ => [1]⟩ cfgGreedy [] (some 2)
            [0] 0).1.count GEv.cacheCheck = 1 :=
  cache_layer_validation lse0 fns0 ⟨4, fun _ => [1]⟩ cfgGreedy [] [0] 0 2
    (by decide) (by decide)

/-- C5 (amended): `generate_step` accepts a configured repetition penalty
exactly when it is falsy (numerically zero) or a non-negative `float`
instance; any other value — including a non-negative `int` — is rejected
eagerly: the error is raised before any forward pass or decode step, with an
empty event trace. -/
theorem penalty_validation_characterization (v : PyNum) :
    (validRepetitionPenalty (some v) = true ↔
        (v.truthy = false ∨ (v.isFloat = true ∧ 0 ≤ v.toQ))) ∧
      ∀ (lse : Vec → ℚ) (fns : SamplerFns) (M : ModelFn) (cfg : GenCfg)
        (user : List Proc) (sc : Option Nat) (prompt : List Token)
        (steps : Nat),
        cfg.repetition_penalty = some v →
        validRepetitionPenalty (some v) = false →
        generate_step lse fns M cfg user sc prompt steps =
          ([], some "repetition_penalty must be a non-negative float") := by
  constructor
  · cases v with
    | int n =>
      simp [validRepetitionPenalty, PyNum.truthy, PyNum.isFloat, PyNum.toQ]
    | float q =>
      simp [validRepetitionPenalty, PyNum.truthy, PyNum.isFloat, PyNum.toQ,
        not_lt]
  · intro lse fns M cfg user sc prompt steps hcfg hbad
    rw [generate_step, hcfg, hbad]
    rfl

/-- C5 counterexample: the integer penalty `2` is a non-negative real number,
yet `generate_step` rejects it — the claim that a non-negative penalty is
never rejected is false. -/
theorem penalty_validation_counterexample :
    validRepetitionPenalty (some (PyNum.int 2)) = false ∧
      (PyNum.int 2).truthy = true ∧ 0 ≤ (PyNum.int 2).toQ := by
  refine ⟨by decide, by decide, ?_⟩
  show (0 : ℚ) ≤ ((2 : ℤ) : ℚ)
  decide

/-- C5 witness: the accepted float penalty `1.5` satisfies the amended
characterization. -/
theorem penalty_validation_witness :
    validRepetitionPenalty (some (PyNum.float (3/2))) = true ↔
      ((PyNum.float (3/2)).truthy = false ∨
        ((PyNum.float (3/2)).isFloat = true ∧ 0 ≤ (PyNum.float (3/2)).toQ)) :=
  (penalty_validation_characterization (PyNum.float (3/2))).1

/-- Rate-limiter loop state: `last_target_time`. -/
structure RateSt where
  lastTarget : ℚ
deriving DecidableEq

/-- One pass over lines 259–266 with a rate limit configured: advance the
target-time accumulator by exactly `1/R` from its prior value, then compute
the sleep — the positive part of the new target minus the current
`perf_counter` reading. The accumulator update never reads the clock. -/
def rateIter (r : ℚ) (clockNow : ℚ) (st : RateSt) : RateSt × Option ℚ :=
  let lt := st.lastTarget + 1 / r
  (⟨lt⟩, if 0 < lt - clockNow then some (lt - clockNow) else none)

/-- One fold step of the limiter: run `rateIter` on the current clock reading
and append the produced sleep. -/
def rateFold (r : ℚ) (acc : RateSt × List (Option ℚ)) (c : ℚ) :
    RateSt × List (Option ℚ) :=
  let s := rateIter r c acc.1
  (s.1, acc.2 ++ [s.2])

/-- The limiter across a run: fold `rateFold` over the successive
`perf_counter` readings of the generation loop, starting from the
initialization reading `t0` taken at line 253, collecting the sleeps. -/
def runRateLoop (r t0 : ℚ) (clocks : List ℚ) : RateSt × List (Option ℚ) :=
  clocks.foldl (rateFold r) (⟨t0⟩, [])

/-- Folding the limiter adds `1/R` per step to the accumulator, whatever the
clock readings are. -/
theorem runRateLoop_foldl_lastTarget (r : ℚ) :
    ∀ (clocks : List ℚ) (st : RateSt) (l : List (Option ℚ)),
      ((clocks.foldl (rateFold r) (st, l)).1).lastTarget =
        st.lastTarget + clocks.length * (1 / r) := by
  intro clocks
  induction clocks with
  | nil => intro st l; simp
  | cons c cs ih =>
    intro st l
    rw [List.foldl_cons]
    have hone : rateFold r (st, l) c =
        ((⟨st.lastTarget + 1 / r⟩ : RateSt),
          l ++ [(rateIter r c st).2]) := rfl
    rw [hone, ih]
    simp only [List.length_cons]
    push_cast
    ring

/-- C9: with a rate limit `R` configured, after any `n` loop iterations the
target-time accumulator equals its initialization value plus exactly
`n · (1/R)`; it is never reassigned from the wall clock — any two runs with
the same number of steps, whatever their clock readings (however slow the
steps were), leave the accumulator identical, so no catch-up burst can
occur. -/
theorem rate_limiter_fixed_increments (r t0 : ℚ) (clocks : List ℚ)
    (hr : 0 < r) :
    (runRateLoop r t0 clocks).1.lastTarget = t0 + clocks.length * (1 / r) ∧
      ∀ clocks' : List ℚ, clocks'.length = clocks.length →
        (runRateLoop r t0 clocks').1.lastTarget =
          (runRateLoop r t0 clocks).1.lastTarget := by
  have key : ∀ cl : List ℚ,
      (runRateLoop r t0 cl).1.lastTarget = t0 + cl.length * (1 / r) := by
    intro cl
    rw [runRateLoop]
    exact runRateLoop_foldl_lastTarget r cl ⟨t0⟩ []
  refine ⟨key clocks, fun clocks' hlen => ?_⟩
  rw [key clocks', key clocks, hlen]

/-- C9 witness: rate `2`, start time `10`, three steps with arbitrary clock
readings: the accumulator lands at `10 + 3·(1/2)`, and any equally long run
(here a much slower one) leaves it identical. -/
theorem rate_limiter_fixed_increments_witness :
    ((runRateLoop 2 10 [11, 12, 13]).1.lastTarget =
        10 + ([11, 12, 13] : List ℚ).length * (1 / 2) ∧
      ∀ clocks' : List ℚ, clocks'.length = ([11, 12, 13] : List ℚ).length →
        (runRateLoop 2 10 clocks').1.lastTarget =
          (runRateLoop 2 10 [11, 12, 13]).1.lastTarget) :=
  rate_limiter_fixed_increments 2 10 [11, 12, 13] (by decide)

/-- Observable detokenizer and stream events of `stream_generate`. -/
inductive DEv where
  | add (t : Token)
  | yieldSeg
  | finalize
deriving DecidableEq

/-- The loop body of `stream_generate` (lines 300–311) over the token stream
pulled from `generate_step`, bounded by `zip(range(max_tokens), ...)`: stop at
the EOS token without adding it, otherwise add the token to the detokenizer
and yield the current segment; on exit, finalize once and yield the final
segment. -/
def streamLoop (eos : Token) : Nat → List Token → List DEv
  | 0, _ => [DEv.finalize, DEv.yieldSeg]
  | _ + 1, [] => [DEv.finalize, DEv.yieldSeg]
  | n + 1, t :: ts =>
    if t = eos then [DEv.finalize, DEv.yieldSeg]
    else DEv.add t :: DEv.yieldSeg :: streamLoop eos n ts

/-- `stream_generate` (lines 271–311), abstracted over the token stream its
`generate_step` call yields. -/
def stream_generate (maxTokens : Nat) (eos : Token) (toks : List Token) :
    List DEv :=
  streamLoop eos maxTokens toks

/-- The tokens handed to the detokenizer in a stream trace. -/
def addedTokens (evs : List DEv) : List Token :=
  evs.filterMap (fun e => match e with | DEv.add t => some t | _ => none)

/-- C7: when the EOS token arrives as generated token number `j + 1` with
`j + 1 ≤ max_tokens`, `stream_generate` emits exactly the `j` preceding
tokens to the detokenizer, never emits the EOS token, and performs exactly
one finalization flush. -/
theorem stream_eos_stops_and_flushes_once (eos : Token) :
    ∀ (j maxTokens : Nat) (toks : List Token),
      toks.get? j = some eos →
      (∀ i, i < j → toks.get? i ≠ some eos) →
      j + 1 ≤ maxTokens →
      (stream_generate maxTokens eos toks =
          (toks.take j).flatMap (fun t => [DEv.add t, DEv.yieldSeg]) ++
            [DEv.finalize, DEv.yieldSeg] ∧
        addedTokens (stream_generate maxTokens eos toks) = toks.take j ∧
        DEv.add eos ∉ stream_generate maxTokens eos toks ∧
        (stream_generate maxTokens eos toks).count DEv.finalize = 1) := by
  intro j
  induction j with
  | zero =>
    intro maxTokens toks hj hpre hle
    obtain ⟨m, rfl⟩ : ∃ m, maxTokens = m + 1 := ⟨maxTokens - 1, by omega⟩
    cases toks with
    | nil => simp at hj
    | cons t ts =>
      have ht : t = eos := by simpa using hj
      subst ht
      simp [stream_generate, streamLoop, addedTokens]
  | succ j ih =>
    intro maxTokens toks hj hpre hle
    obtain ⟨m, rfl⟩ : ∃ m, maxTokens = m + 1 := ⟨maxTokens - 1, by omega⟩
    cases toks with
    | nil => simp at hj
    | cons t ts =>
      have ht : t ≠ eos := by
        intro h
        exact hpre 0 (by omega) (by simpa using congrArg some h)
      have hj' : ts.get? j = some eos := by simpa using hj
      have hpre' : ∀ i, i < j → ts.get? i ≠ some eos := by
        intro i hi
        have := hpre (i + 1) (by omega)
        simpa using this
      obtain ⟨h1, h2, h3, h4⟩ := ih m ts hj' hpre' (by omega)
      have hstep : stream_generate (m + 1) eos (t :: ts) =
          DEv.add t :: DEv.yieldSeg :: stream_generate m eos ts := by
        simp only [stream_generate, streamLoop]
        rw [if_neg ht]
      refine ⟨?_, ?_, ?_, ?_⟩
      · rw [hstep, h1, List.take_succ_cons, List.flatMap_cons]
        simp
      · rw [hstep, List.take_succ_cons]
        simp only [addedTokens, List.filterMap_cons] at h2 ⊢
        simp [h2]
      · rw [hstep]
        simp only [List.mem_cons]
        push_neg
        refine ⟨?_, by simp, h3⟩
        intro hadd
        exact ht (by injection hadd with h; exact h.symm)
      · rw [hstep]
        simp [List.count_cons, h4]

/-- C7 witness: EOS as the 3rd generated token with `max_tokens = 10` ⇒
exactly the 2 preceding tokens are added, EOS never appears, one finalize. -/
theorem stream_eos_stops_and_flushes_once_witness :
    stream_generate 10 7 [5, 6, 7, 8] =
        (([5, 6, 7, 8] : List Token).take 2).flatMap
          (fun t => [DEv.add t, DEv.yieldSeg]) ++
          [DEv.finalize, DEv.yieldSeg] ∧
      addedTokens (stream_generate 10 7 [5, 6, 7, 8]) =
        ([5, 6, 7, 8] : List Token).take 2 ∧
      DEv.add 7 ∉ stream_generate 10 7 [5, 6, 7, 8] ∧
      (stream_generate 10 7 [5, 6, 7, 8]).count DEv.finalize = 1 :=
  stream_eos_stops_and_flushes_once 7 2 10 [5, 6, 7, 8] (by decide)
    (by decide) (by omega)

/-- A tag standing for one stage object in a `logits_processor` list: a
caller-supplied stage, the internal repetition-penalty stage, or the internal
fixed-bias stage. -/
inductive ProcTag where
  | user (i : Nat)
  | repPen
  | bias
deriving DecidableEq

/-- A tiny heap of Python list objects, indexed by reference. -/
structure Heap where
  store : List (List ProcTag)
deriving DecidableEq

/-- Dereference a list object. -/
def Heap.get (h : Heap) (r : Nat) : List ProcTag := h.store.getD r []

/-- Mutate a list object in place. -/
def Heap.set (h : Heap) (r : Nat) (l : List ProcTag) : Heap := ⟨h.store.set r l⟩

/-- Allocate a fresh list object, returning its reference. -/
def Heap.alloc (h : Heap) (l : List ProcTag) : Heap × Nat :=
  (⟨h.store ++ [l]⟩, h.store.length)

/-- Lines 201–219 of `generate_step` at the object level:
`logits_processor = logits_processor or []` keeps the caller's list object
whenever it is non-empty (allocating a fresh empty list when the argument is
`None` or an empty list), and `.append(...)` then mutates that same object —
first the repetition-penalty stage when configured, then the fixed-bias
stage when configured. Returns the heap and the reference the generator keeps
using. -/
def setupPipelineHeap (h : Heap) (callerRef : Option Nat)
    (repConfigured biasConfigured : Bool) : Heap × Nat :=
  let hr :=
    match callerRef with
    | none => h.alloc []
    | some r => if h.get r = [] then h.alloc [] else (h, r)
  let h1 :=
    if repConfigured then hr.1.set hr.2 (hr.1.get hr.2 ++ [ProcTag.repPen])
    else hr.1
  let h2 :=
    if biasConfigured then h1.set hr.2 (h1.get hr.2 ++ [ProcTag.bias])
    else h1
  (h2, hr.2)

/-- Reading back a just-written in-range reference gives the written list. -/
theorem Heap.get_set_self (h : Heap) (r : Nat) (l : List ProcTag)
    (hr : r < h.store.length) : (h.set r l).get r = l := by
  unfold Heap.get Heap.set
  simp [List.getD_eq_getElem?_getD, List.getElem?_set_self, hr]

/-- C10: when the caller passes a non-empty `logits_processor` list and both
the repetition penalty and the logit bias are configured, `generate_step`
keeps using the caller's own list object and appends its two internal stages
onto it — after setup the caller's reference holds its original stages
followed by the penalty and bias tags, two entries longer than before. -/
theorem caller_list_mutated_in_place (h : Heap) (r : Nat)
    (hr : r < h.store.length) (hne : h.get r ≠ []) :
    (setupPipelineHeap h (some r) true true).2 = r ∧
      (setupPipelineHeap h (some r) true true).1.get r =
        h.get r ++ [ProcTag.repPen, ProcTag.bias] ∧
      ((setupPipelineHeap h (some r) true true).1.get r).length =
        (h.get r).length + 2 := by
  have hsetup :
      setupPipelineHeap h (some r) true true =
        ((h.set r (h.get r ++ [ProcTag.repPen])).set r
            ((h.set r (h.get r ++ [ProcTag.repPen])).get r ++ [ProcTag.bias]),
          r) := by
    unfold setupPipelineHeap
    simp [hne]
  have hlen1 : (h.set r (h.get r ++ [ProcTag.repPen])).store.length =
      h.store.length := by
    unfold Heap.set
    simp
  have hget1 : (h.set r (h.get r ++ [ProcTag.repPen])).get r =
      h.get r ++ [ProcTag.repPen] := Heap.get_set_self h r _ hr
  have hget2 : (setupPipelineHeap h (some r) true true).1.get r =
      h.get r ++ [ProcTag.repPen, ProcTag.bias] := by
    rw [hsetup]
    have := Heap.get_set_self (h.set r (h.get r ++ [ProcTag.repPen])) r
      ((h.set r (h.get r ++ [ProcTag.repPen])).get r ++ [ProcTag.bias])
      (by rw [hlen1]; exact hr)
    rw [this, hget1, List.append_assoc]
    rfl
  refine ⟨by rw [hsetup], hget2, by rw [hget2]; simp⟩

/-- C10 witness: a heap holding the caller's one-stage list at reference `0`;
after setup the same reference holds three stages, the caller's followed by
the two internal ones. -/
theorem caller_list_mutated_in_place_witness :
    (setupPipelineHeap ⟨[[ProcTag.user 0]]⟩ (some 0) true true).2 = 0 ∧
      (setupPipelineHeap ⟨[[ProcTag.user 0]]⟩ (some 0) true true).1.get 0 =
        (Heap.get ⟨[[ProcTag.user 0]]⟩ 0) ++ [ProcTag.repPen, ProcTag.bias] ∧
      ((setupPipelineHeap ⟨[[ProcTag.user 0]]⟩ (some 0) true true).1.get
          0).length =
        (Heap.get ⟨[[ProcTag.user 0]]⟩ 0).length + 2 :=
  caller_list_mutated_in_place ⟨[[ProcTag.user 0]]⟩ 0 (by decide) (by decide)

end MlxLm
